import Mathlib

/-!
Verification of the CPUGraph interactive selection and annotation engine.

Shallow embedding of the core algorithmic logic of the repository:
cycle segmentation (`cpugraph/plotting/cycle_backgrounds.py`), the series
selection manager (`cpugraph/ui/selection/selection_manager.py`), time-window
filtering and smoothing (`cpugraph/plotting/plotter.py`,
`cpugraph/calculations.py`), the hover point resolver
(`cpugraph/plotting/hover_tooltip.py`) and the two-click time-range selection
machine (`cpugraph/plotting/time_selection.py`).

Numeric data (sensor values, timestamps converted to plot coordinates) is
modelled by `ℚ`; a value that failed `pd.to_numeric(..., errors="coerce")`
(NaN) is modelled by `none` in `Option ℚ`.
-/

namespace CPUGraph

/-! ### Cycle segmentation (`cycle_backgrounds.py`, `add_cycle_backgrounds`) -/

/-- A counter column after `pd.to_numeric(df_plot[self.time_s_column], errors='coerce')`:
each row holds either a parsed numeric value or `none` (NaN, non-parseable). -/
abbrev Counter := List (Option ℚ)

/-- Lines 73-77 of `cycle_backgrounds.py`: row `i` opens a new cycle when both the
previous and the current counter value are parseable (`pd.notna`) and the current
value strictly decreased. -/
def isCycleBoundary (c : Counter) (i : ℕ) : Bool :=
  match c.getD (i - 1) none, c.getD i none with
  | some prev, some cur => decide (cur < prev)
  | _, _ => false

/-- The `cycle_starts` list built by lines 71-77: row 0 is always a cycle start, and
every later row at which `isCycleBoundary` fires is appended, in row order. -/
def cycleStarts (c : Counter) : List ℕ :=
  0 :: (List.range c.length).filter (fun i => decide (0 < i) && isCycleBoundary c i)

/-- Line 80: the end of the last cycle (`len(df_plot)`) is appended to the start list. -/
def cycleBounds (c : Counter) : List ℕ :=
  cycleStarts c ++ [c.length]

/-- Lines 107-109: cycle `i` spans rows `cycle_starts[i]` to `cycle_starts[i+1] - 1`
(inclusive on both ends). -/
def cycleRanges (c : Counter) : List (ℕ × ℕ) :=
  ((cycleBounds c).zip (cycleBounds c).tail).map (fun p => (p.1, p.2 - 1))

/-- The rows covered by one inclusive cycle range. -/
def rangeRows (p : ℕ × ℕ) : List ℕ :=
  List.range' p.1 (p.2 + 1 - p.1)

lemma isCycleBoundary_lt {c : Counter} {i : ℕ} (h : isCycleBoundary c i = true) :
    i < c.length := by
  by_contra hn
  push_neg at hn
  unfold isCycleBoundary at h
  rw [List.getD_eq_default _ _ hn] at h
  rcases h1 : c.getD (i - 1) none with _ | prev <;> rw [h1] at h <;> simp at h

lemma chunk_rows (bs : List ℕ) : ∀ a n : ℕ,
    List.Pairwise (· < ·) (a :: (bs ++ [n])) →
    (((a :: (bs ++ [n])).zip (bs ++ [n])).map (fun p => (p.1, p.2 - 1))).flatMap rangeRows
      = List.range' a (n - a) := by
  induction bs with
  | nil =>
    intro a n h
    have han : a < n := (List.pairwise_cons.mp h).1 n (by simp)
    simp only [List.nil_append, List.zip_cons_cons, List.zip_nil_right, List.map_cons,
      List.map_nil, List.flatMap_cons, List.flatMap_nil, List.append_nil]
    unfold rangeRows
    have e : n - 1 + 1 - a = n - a := by omega
    rw [e]
  | cons b bs ih =>
    intro a n h
    rcases List.pairwise_cons.mp h with ⟨ha, h2⟩
    have hab : a < b := ha b (by simp)
    have hbn : b < n := (List.pairwise_cons.mp h2).1 n (by simp)
    have step := ih b n h2
    simp only [List.cons_append, List.zip_cons_cons, List.map_cons,
      List.flatMap_cons] at *
    rw [step]
    have harr : rangeRows (a, b - 1) = List.range' a (b - a) := by
      simp only [rangeRows]
      congr 1
      omega
    rw [harr]
    have happ := List.range'_append a (b - a) (n - b) 1
    have e1 : a + 1 * (b - a) = b := by omega
    have e2 : n - b + (b - a) = n - a := by omega
    rw [e1, e2] at happ
    exact happ

lemma chunk_last (bs : List ℕ) : ∀ a n : ℕ,
    ((((a :: (bs ++ [n])).zip (bs ++ [n])).map (fun p => (p.1, p.2 - 1))).map
        Prod.snd).getLast? = some (n - 1) := by
  induction bs with
  | nil => intro a n; rfl
  | cons b bs ih =>
    intro a n
    have step := ih b n
    simp only [List.cons_append, List.zip_cons_cons, List.map_cons] at *
    rcases hL : ((((b :: (bs ++ [n])).zip (bs ++ [n])).map (fun p => (p.1, p.2 - 1))).map
        Prod.snd) with _ | ⟨y, t⟩
    · rw [hL] at step; simp at step
    · rw [hL] at step
      rw [hL, List.getLast?_cons_cons]
      exact step

lemma cycleBounds_pairwise (c : Counter) (h : 0 < c.length) :
    List.Pairwise (· < ·)
      (0 :: ((List.range c.length).filter
        (fun i => decide (0 < i) && isCycleBoundary c i) ++ [c.length])) := by
  rw [List.pairwise_cons]
  constructor
  · intro x hx
    rcases List.mem_append.mp hx with hx | hx
    · have := (List.mem_filter.mp hx).2
      simp only [Bool.and_eq_true, decide_eq_true_eq] at this
      exact this.1
    · simp only [List.mem_singleton] at hx
      omega
  · rw [List.pairwise_append]
    refine ⟨?_, by simp, ?_⟩
    · exact List.Pairwise.sublist (List.filter_sublist _) (List.pairwise_lt_range c.length)
    · intro x hx y hy
      have hxr := (List.mem_filter.mp hx).1
      simp only [List.mem_singleton] at hy
      subst hy
      exact List.mem_range.mp hxr

/-- C1: for every counter column with at least one row, cycle segmentation partitions
the rows into contiguous ordered cycles: concatenating the row ranges of the cycles, in
order, yields exactly the rows `0, …, n-1` (each row covered once, no gaps, no
overlaps); a row `i > 0` is a cycle start exactly when both `counter[i-1]` and
`counter[i]` parsed and `counter[i] < counter[i-1]`; row 0 is always a cycle start; the
final cycle ends at the last row; and the counter `[0,1,2,0,1,0,1,2,3]` yields cycle
starts `[0,3,5]` with cycles spanning rows 0-2, 3-4 and 5-8. -/
theorem cycle_partition_coverage (c : Counter) (h : 0 < c.length) :
    (cycleRanges c).flatMap rangeRows = List.range c.length
    ∧ (∀ i, 0 < i → (i ∈ cycleStarts c ↔ isCycleBoundary c i = true))
    ∧ 0 ∈ cycleStarts c
    ∧ ((cycleRanges c).map Prod.snd).getLast? = some (c.length - 1)
    ∧ cycleStarts [some 0, some 1, some 2, some 0, some 1, some 0, some 1, some 2,
        some 3] = [0, 3, 5]
    ∧ cycleRanges [some 0, some 1, some 2, some 0, some 1, some 0, some 1, some 2,
        some 3] = [(0, 2), (3, 4), (5, 8)] := by
  refine ⟨?_, ?_, ?_, ?_, by decide, by decide⟩
  · have hp := cycleBounds_pairwise c h
    have := chunk_rows ((List.range c.length).filter
        (fun i => decide (0 < i) && isCycleBoundary c i)) 0 c.length hp
    simpa [cycleRanges, cycleBounds, cycleStarts, List.range_eq_range'] using this
  · intro i hi
    simp only [cycleStarts, List.mem_cons, List.mem_filter, List.mem_range,
      Bool.and_eq_true, decide_eq_true_eq]
    constructor
    · rintro (rfl | ⟨-, -, hb⟩)
      · omega
      · exact hb
    · intro hb
      exact Or.inr ⟨isCycleBoundary_lt hb, hi, hb⟩
  · simp [cycleStarts]
  · have := chunk_last ((List.range c.length).filter
        (fun i => decide (0 < i) && isCycleBoundary c i)) 0 c.length
    simpa [cycleRanges, cycleBounds, cycleStarts] using this

/-- Witness for `cycle_partition_coverage` at the counter `[3, 1]` (one reset). -/
theorem cycle_partition_coverage_witness :
    0 < ([some 3, some 1] : Counter).length
    ∧ ((cycleRanges [some 3, some 1]).flatMap rangeRows = List.range 2
      ∧ (∀ i, 0 < i →
          (i ∈ cycleStarts [some 3, some 1] ↔ isCycleBoundary [some 3, some 1] i = true))
      ∧ 0 ∈ cycleStarts [some 3, some 1]
      ∧ ((cycleRanges [some 3, some 1]).map Prod.snd).getLast? = some 1
      ∧ cycleStarts [some 0, some 1, some 2, some 0, some 1, some 0, some 1, some 2,
          some 3] = [0, 3, 5]
      ∧ cycleRanges [some 0, some 1, some 2, some 0, some 1, some 0, some 1, some 2,
          some 3] = [(0, 2), (3, 4), (5, 8)]) :=
  ⟨by decide, cycle_partition_coverage [some 3, some 1] (by decide)⟩

/-! ### Series selection manager (`selection_manager.py`, `SeriesSelectionManager`) -/

/-- Display names and column names are Python strings, modelled as lists of
characters. -/
abbrev Item := List Char

/-- The separator row inserted by `filter_listbox` line 155: forty box-drawing dashes
(`"─" * 40`). -/
def separatorItem : Item := List.replicate 40 '─'

/-- Python `item.startswith("─")` (lines 97, 128, 188, 206, 237, 244). -/
def startsWithSeparator (s : Item) : Bool :=
  match s with
  | [] => false
  | ch :: _ => ch = '─'

/-- A Tk listbox as the selection manager observes it: rows in order, each with its
current highlight state (membership in `curselection()`). -/
abbrev Listbox := List (Item × Bool)

/-- The display names currently highlighted in a listbox, skipping separator rows —
the reading loop shared by `update_tracking` (lines 93-98), the tracking pre-pass of
`filter_listbox` (lines 126-129) and `get_selected_columns` (lines 233-238). -/
def highlightedItems (lb : Listbox) : Finset Item :=
  ((lb.filter (fun r => r.2 && !startsWithSeparator r.1)).map Prod.fst).toFinset

/-- `update_tracking` (lines 79-101): the side's tracking set is cleared and rebuilt
from the current listbox highlights, skipping separator rows. -/
def updateTracking (lb : Listbox) : Finset Item := highlightedItems lb

/-- ASCII lowercasing of a string, modelling Python `str.lower()` (the repository's
labels and all claim examples are ASCII). -/
def toLowerItem (s : Item) : Item := s.map Char.toLower

/-- Python substring test `needle in hay`. -/
def containsSub (needle : Item) : Item → Bool
  | [] => needle.isEmpty
  | c :: rest => needle.isPrefixOf (c :: rest) || containsSub needle rest

/-- Python `str.strip()`: drop whitespace from both ends. -/
def stripItem (s : Item) : Item :=
  ((s.dropWhile Char.isWhitespace).reverse.dropWhile Char.isWhitespace).reverse

/-- Lines 131-134 of `filter_listbox`: the raw entry text is stripped and lowercased,
and the placeholder text "filter..." counts as no filter. -/
def processFilterText (raw : Item) : Item :=
  let t := toLowerItem (stripItem raw)
  if t = "filter...".toList then [] else t

/-- The first population loop of `filter_listbox` (lines 144-151): every catalog
column whose display name is tracked is inserted, highlighted, in catalog order. -/
def filterSelRows (allColumns : List Item) (columnToDisplay : Item → Item)
    (sel2 : Finset Item) : Listbox :=
  allColumns.filterMap (fun col =>
    let d := columnToDisplay col
    if d ∈ sel2 then some (d, true) else none)

/-- Lines 153-156: a separator row follows when selected rows were inserted and a
filter is active. -/
def filterSepRows (selRows : Listbox) (ft : Item) : Listbox :=
  if selRows ≠ [] ∧ ft ≠ [] then [(separatorItem, false)] else []

/-- The second population loop of `filter_listbox` (lines 158-167): every display name
not already inserted (`added_items`) that matches the filter text — empty text matches
everything, otherwise case-insensitive substring on the display name — is appended,
unhighlighted, in catalog order. -/
def filterMatchRows (allColumns : List Item) (columnToDisplay : Item → Item)
    (added : Finset Item) (ft : Item) : Listbox :=
  allColumns.filterMap (fun col =>
    let d := columnToDisplay col
    if d ∈ added then none
    else if ft = [] ∨ containsSub ft (toLowerItem d) = true then some (d, false)
    else none)

/-- The rebuilt listbox contents (lines 136-167): selected rows, then the separator
row when applicable, then the matching rows, with `added_items` holding the display
names of the selected rows plus the separator when inserted. -/
def filterRebuild (allColumns : List Item) (columnToDisplay : Item → Item)
    (sel2 : Finset Item) (ft : Item) : Listbox :=
  filterSelRows allColumns columnToDisplay sel2
    ++ filterSepRows (filterSelRows allColumns columnToDisplay sel2) ft
    ++ filterMatchRows allColumns columnToDisplay
        (((filterSelRows allColumns columnToDisplay sel2).map Prod.fst).toFinset ∪
          ((filterSepRows (filterSelRows allColumns columnToDisplay sel2) ft).map
            Prod.fst).toFinset) ft

/-- `filter_listbox` (lines 103-173). With an empty catalog the method returns at once
(lines 120-121), touching nothing. Otherwise it adds the currently highlighted
non-separator rows to the tracking set, computes the effective filter text, and
rebuilds the listbox. Returns the new tracking set and the rebuilt listbox. -/
def filterListbox (allColumns : List Item) (columnToDisplay : Item → Item)
    (sel : Finset Item) (lb : Listbox) (raw : Item) : Finset Item × Listbox :=
  if allColumns = [] then (sel, lb)
  else
    (sel ∪ highlightedItems lb,
      filterRebuild allColumns columnToDisplay (sel ∪ highlightedItems lb)
        (processFilterText raw))

/-- `select_all` (lines 175-193): every visible non-separator row becomes highlighted
and its display name is added to the tracking set. -/
def selectAllSet (sel : Finset Item) (lb : Listbox) : Finset Item :=
  sel ∪ ((lb.filter (fun r => !startsWithSeparator r.1)).map Prod.fst).toFinset

/-- `deselect_all` (lines 195-215): every visible non-separator display name is
discarded from the tracking set. -/
def deselectAllSet (sel : Finset Item) (lb : Listbox) : Finset Item :=
  sel \ ((lb.filter (fun r => !startsWithSeparator r.1)).map Prod.fst).toFinset

/-- `get_selected_columns` (lines 217-249): rebuilds the tracking set from the current
highlights exactly like `update_tracking`, then maps every tracked display name (again
skipping separator names as a safety check) through `column_display_map` to an actual
column name. Python iterates the tracking `set` in unspecified order; the model uses
the deduplicated listbox order. -/
def getSelectedColumns (columnDisplayMap : Item → Item) (lb : Listbox) :
    Finset Item × List Item :=
  let sel2 := updateTracking lb
  (sel2,
    ((lb.filter (fun r => r.2 && !startsWithSeparator r.1)).map Prod.fst).dedup.filterMap
      (fun d => if startsWithSeparator d then none else some (columnDisplayMap d)))

/-- The two per-axis tracking sets (`left_selected`, `right_selected`). -/
structure SelectionState where
  leftSelected : Finset Item
  rightSelected : Finset Item

/-- One user-driven manager operation that touches the tracking sets; each carries the
side it acts on and the listbox (plus catalog data where used) it observes. -/
inductive SelOp where
  | updateTracking (side : Bool) (lb : Listbox)
  | filterListbox (side : Bool) (cols : List Item) (disp : Item → Item) (lb : Listbox)
      (raw : Item)
  | selectAll (side : Bool) (lb : Listbox)
  | deselectAll (side : Bool) (lb : Listbox)
  | getSelectedColumns (side : Bool) (columnDisplayMap : Item → Item) (lb : Listbox)
  | clearSelections
  | updateColumns

/-- Apply a function to the tracking set chosen by `side` (`false` = left). -/
def applySide (st : SelectionState) (side : Bool) (f : Finset Item → Finset Item) :
    SelectionState :=
  if side then { st with rightSelected := f st.rightSelected }
  else { st with leftSelected := f st.leftSelected }

/-- The effect of each manager operation on the tracking sets: `update_tracking` and
`get_selected_columns` rebuild the side's set from the listbox, `filter_listbox` unions
in the current highlights, `select_all` adds the visible non-separator rows,
`deselect_all` discards them, and `clear_selections` / `update_columns` clear both
sets. -/
def applySelOp (st : SelectionState) : SelOp → SelectionState
  | .updateTracking side lb => applySide st side (fun _ => updateTracking lb)
  | .filterListbox side cols disp lb raw =>
      applySide st side (fun s => (filterListbox cols disp s lb raw).1)
  | .selectAll side lb => applySide st side (fun s => selectAllSet s lb)
  | .deselectAll side lb => applySide st side (fun s => deselectAllSet s lb)
  | .getSelectedColumns side _ lb => applySide st side (fun _ => updateTracking lb)
  | .clearSelections => ⟨∅, ∅⟩
  | .updateColumns => ⟨∅, ∅⟩

/-- A tracking set free of separator entries. -/
def SepFree (s : Finset Item) : Prop := ∀ x ∈ s, startsWithSeparator x = false

lemma sepFree_highlightedItems (lb : Listbox) : SepFree (highlightedItems lb) := by
  intro x hx
  simp only [highlightedItems, List.mem_toFinset, List.mem_map] at hx
  rcases hx with ⟨r, hr, rfl⟩
  have := (List.mem_filter.mp hr).2
  simp only [Bool.and_eq_true, Bool.not_eq_eq_eq_not, Bool.not_true] at this
  exact this.2

lemma sepFree_union {s t : Finset Item} (hs : SepFree s) (ht : SepFree t) :
    SepFree (s ∪ t) := by
  intro x hx
  rcases Finset.mem_union.mp hx with h | h
  · exact hs x h
  · exact ht x h

lemma sepFree_filterListbox {sel : Finset Item} (hs : SepFree sel)
    (cols : List Item) (disp : Item → Item) (lb : Listbox) (raw : Item) :
    SepFree (filterListbox cols disp sel lb raw).1 := by
  unfold filterListbox
  by_cases h : cols = []
  · rw [if_pos h]; exact hs
  · rw [if_neg h]
    exact sepFree_union hs (sepFree_highlightedItems lb)

lemma sepFree_selectAllSet {sel : Finset Item} (hs : SepFree sel) (lb : Listbox) :
    SepFree (selectAllSet sel lb) := by
  refine sepFree_union hs ?_
  intro x hx
  simp only [List.mem_toFinset, List.mem_map] at hx
  rcases hx with ⟨r, hr, rfl⟩
  have := (List.mem_filter.mp hr).2
  simpa using this

lemma sepFree_deselectAllSet {sel : Finset Item} (hs : SepFree sel) (lb : Listbox) :
    SepFree (deselectAllSet sel lb) := by
  intro x hx
  exact hs x (Finset.mem_sdiff.mp hx).1

/-- Both sides of a selection state are separator-free. -/
def SepFreeState (st : SelectionState) : Prop :=
  SepFree st.leftSelected ∧ SepFree st.rightSelected

lemma sepFreeState_applySide {st : SelectionState} (h : SepFreeState st) (side : Bool)
    {f : Finset Item → Finset Item} (hf : ∀ s, SepFree s → SepFree (f s)) :
    SepFreeState (applySide st side f) := by
  unfold applySide
  rcases h with ⟨hl, hr⟩
  cases side
  · exact ⟨hf _ hl, hr⟩
  · exact ⟨hl, hf _ hr⟩

lemma sepFreeState_applySelOp {st : SelectionState} (h : SepFreeState st) (op : SelOp) :
    SepFreeState (applySelOp st op) := by
  cases op with
  | updateTracking side lb =>
    exact sepFreeState_applySide h side (fun _ _ => sepFree_highlightedItems lb)
  | filterListbox side cols disp lb raw =>
    exact sepFreeState_applySide h side (fun s hs => sepFree_filterListbox hs cols disp lb raw)
  | selectAll side lb =>
    exact sepFreeState_applySide h side (fun s hs => sepFree_selectAllSet hs lb)
  | deselectAll side lb =>
    exact sepFreeState_applySide h side (fun s hs => sepFree_deselectAllSet hs lb)
  | getSelectedColumns side m lb =>
    exact sepFreeState_applySide h side (fun _ _ => sepFree_highlightedItems lb)
  | clearSelections =>
    exact ⟨fun x hx => absurd hx (Finset.not_mem_empty x),
      fun x hx => absurd hx (Finset.not_mem_empty x)⟩
  | updateColumns =>
    exact ⟨fun x hx => absurd hx (Finset.not_mem_empty x),
      fun x hx => absurd hx (Finset.not_mem_empty x)⟩

lemma sepFreeState_foldl (ops : List SelOp) :
    ∀ st : SelectionState, SepFreeState st → SepFreeState (ops.foldl applySelOp st) := by
  induction ops with
  | nil => intro st h; exact h
  | cons op t ih => intro st h; exact ih _ (sepFreeState_applySelOp h op)

/-- C10: starting from the empty selections, no sequence of manager operations ever
puts a separator entry into either axis's tracking set (every reading loop skips items
beginning with "─"), and `get_selected_columns` never returns a separator entry
(provided the display-to-column map does not itself send a non-separator display name
to a separator-prefixed column name, which holds whenever no catalog column starts
with "─"). -/
theorem separator_never_selected :
    (∀ ops : List SelOp, SepFreeState (ops.foldl applySelOp ⟨∅, ∅⟩))
    ∧ (∀ (columnDisplayMap : Item → Item) (lb : Listbox),
        (∀ d, startsWithSeparator (columnDisplayMap d) = true →
          startsWithSeparator d = true) →
        ∀ x ∈ (getSelectedColumns columnDisplayMap lb).2,
          startsWithSeparator x = false) := by
  constructor
  · intro ops
    exact sepFreeState_foldl ops _
      ⟨fun x hx => absurd hx (Finset.not_mem_empty x),
        fun x hx => absurd hx (Finset.not_mem_empty x)⟩
  · intro m lb hm x hx
    simp only [getSelectedColumns, List.mem_filterMap] at hx
    rcases hx with ⟨d, hd, hmap⟩
    by_cases hsep : startsWithSeparator d = true
    · rw [if_pos hsep] at hmap
      exact absurd hmap (by simp)
    · rw [if_neg hsep] at hmap
      have hxeq : m d = x := Option.some.inj hmap
      subst hxeq
      by_cases hb : startsWithSeparator (m d) = true
      · exact absurd (hm d hb) hsep
      · simpa using hb

/-- Witness for `separator_never_selected`: the identity display-to-column map
satisfies the hypothesis, and on a listbox with a highlighted separator row the
returned columns and the tracking sets stay separator-free. -/
theorem separator_never_selected_witness :
    (∀ d : Item, startsWithSeparator (id d) = true → startsWithSeparator d = true)
    ∧ (∀ x ∈ (getSelectedColumns id [(separatorItem, true), (['a'], true)]).2,
        startsWithSeparator x = false)
    ∧ SepFreeState
        ([SelOp.selectAll false [(separatorItem, true), (['a'], true)]].foldl
          applySelOp ⟨∅, ∅⟩) :=
  ⟨fun _ h => h,
    separator_never_selected.2 id [(separatorItem, true), (['a'], true)] (fun _ h => h),
    separator_never_selected.1 [SelOp.selectAll false [(separatorItem, true), (['a'], true)]]⟩

lemma mem_filterSelRows {cols : List Item} {disp : Item → Item} {s : Finset Item}
    {r : Item × Bool} (h : r ∈ filterSelRows cols disp s) : r.1 ∈ s ∧ r.2 = true := by
  rcases List.mem_filterMap.mp h with ⟨col, hcol, hf⟩
  dsimp only at hf
  by_cases hd : disp col ∈ s
  · rw [if_pos hd] at hf
    obtain rfl := Option.some.inj hf
    exact ⟨hd, rfl⟩
  · rw [if_neg hd] at hf
    exact absurd hf (by simp)

lemma mem_filterSepRows {sr : Listbox} {ft : Item} {r : Item × Bool}
    (h : r ∈ filterSepRows sr ft) : r = (separatorItem, false) := by
  unfold filterSepRows at h
  split at h
  · simpa using h
  · simp at h

lemma mem_filterMatchRows {cols : List Item} {disp : Item → Item} {added : Finset Item}
    {ft : Item} {r : Item × Bool} (h : r ∈ filterMatchRows cols disp added ft) :
    r.2 = false := by
  rcases List.mem_filterMap.mp h with ⟨col, hcol, hf⟩
  dsimp only at hf
  by_cases h1 : disp col ∈ added
  · rw [if_pos h1] at hf
    exact absurd hf (by simp)
  · rw [if_neg h1] at hf
    by_cases h2 : ft = [] ∨ containsSub ft (toLowerItem (disp col)) = true
    · rw [if_pos h2] at hf
      obtain rfl := Option.some.inj hf
      rfl
    · rw [if_neg h2] at hf
      exact absurd hf (by simp)

lemma highlightedItems_append (l1 l2 : Listbox) :
    highlightedItems (l1 ++ l2) = highlightedItems l1 ∪ highlightedItems l2 := by
  simp [highlightedItems, List.filter_append, List.map_append]

lemma highlightedItems_of_flags_false {l : Listbox} (h : ∀ r ∈ l, r.2 = false) :
    highlightedItems l = ∅ := by
  unfold highlightedItems
  have : l.filter (fun r => r.2 && !startsWithSeparator r.1) = [] := by
    rw [List.filter_eq_nil_iff]
    intro r hr
    simp [h r hr]
  rw [this]
  rfl

lemma highlightedItems_selRows (cols : List Item) (disp : Item → Item)
    (s : Finset Item) : highlightedItems (filterSelRows cols disp s) ⊆ s := by
  intro x hx
  simp only [highlightedItems, List.mem_toFinset, List.mem_map] at hx
  rcases hx with ⟨r, hr, rfl⟩
  exact (mem_filterSelRows (List.mem_filter.mp hr).1).1

lemma filterListbox_fst (cols : List Item) (disp : Item → Item) {sel : Finset Item}
    {lb : Listbox} (raw : Item) (h : highlightedItems lb ⊆ sel) :
    (filterListbox cols disp sel lb raw).1 = sel := by
  unfold filterListbox
  split
  · rfl
  · exact Finset.union_eq_left.mpr h

lemma filterListbox_highlighted (cols : List Item) (disp : Item → Item)
    {sel : Finset Item} {lb : Listbox} (raw : Item) (h : highlightedItems lb ⊆ sel) :
    highlightedItems (filterListbox cols disp sel lb raw).2 ⊆ sel := by
  have hu : sel ∪ highlightedItems lb = sel := Finset.union_eq_left.mpr h
  unfold filterListbox
  split
  · exact h
  · unfold filterRebuild
    simp only [highlightedItems_append, Finset.union_subset_iff]
    refine ⟨⟨?_, ?_⟩, ?_⟩
    · rw [hu]
      exact highlightedItems_selRows cols disp sel
    · rw [highlightedItems_of_flags_false (fun r hr => by rw [mem_filterSepRows hr])]
      exact Finset.empty_subset sel
    · rw [highlightedItems_of_flags_false (fun r hr => mem_filterMatchRows hr)]
      exact Finset.empty_subset sel

lemma filter_fold_fst (cols : List Item) (disp : Item → Item) (raws : List Item) :
    ∀ (sel : Finset Item) (lb : Listbox), highlightedItems lb ⊆ sel →
    (raws.foldl (fun st raw => filterListbox cols disp st.1 st.2 raw) (sel, lb)).1
      = sel := by
  induction raws with
  | nil => intro sel lb _; rfl
  | cons raw t ih =>
    intro sel lb h
    simp only [List.foldl_cons]
    have h1 := filterListbox_fst cols disp raw h
    have h2 := filterListbox_highlighted cols disp raw h
    rcases hfl : filterListbox cols disp sel lb raw with ⟨s1, l1⟩
    rw [hfl] at h1 h2
    dsimp only at h1 h2 ⊢
    subst h1
    exact ih s1 l1 h2

/-- C2: filtering never changes the tracking set by itself. For any catalog, display
map, tracking set and listbox whose highlighted rows are already tracked (the state
left behind by any previous `filter_listbox` call), any sequence of filter-text
changes leaves the tracking set exactly as it was; and unconditionally, a
`filter_listbox` call never removes a tracked item — the new tracking set always
contains the old one. -/
theorem selection_persistence :
    (∀ (cols : List Item) (disp : Item → Item) (sel : Finset Item) (lb : Listbox)
        (raws : List Item), highlightedItems lb ⊆ sel →
        (raws.foldl (fun st raw => filterListbox cols disp st.1 st.2 raw)
          (sel, lb)).1 = sel)
    ∧ (∀ (cols : List Item) (disp : Item → Item) (sel : Finset Item) (lb : Listbox)
        (raw : Item), sel ⊆ (filterListbox cols disp sel lb raw).1) := by
  constructor
  · intro cols disp sel lb raws h
    exact filter_fold_fst cols disp raws sel lb h
  · intro cols disp sel lb raw
    unfold filterListbox
    split
    · exact subset_rfl
    · exact Finset.subset_union_left

/-- Witness for `selection_persistence`: select Alpha and Beta, filter to "A", then
back to no filter — the tracked set is still exactly Alpha and Beta. -/
theorem selection_persistence_witness :
    highlightedItems [("Alpha".toList, true), ("Beta".toList, true),
        ("Gamma".toList, false)] ⊆ {"Alpha".toList, "Beta".toList}
    ∧ ((["A".toList, "".toList] : List Item).foldl
        (fun st raw => filterListbox ["Alpha".toList, "Beta".toList, "Gamma".toList]
          id st.1 st.2 raw)
        ({"Alpha".toList, "Beta".toList},
          [("Alpha".toList, true), ("Beta".toList, true), ("Gamma".toList, false)])).1
      = {"Alpha".toList, "Beta".toList} :=
  ⟨by decide,
    selection_persistence.1 ["Alpha".toList, "Beta".toList, "Gamma".toList] id
      {"Alpha".toList, "Beta".toList}
      [("Alpha".toList, true), ("Beta".toList, true), ("Gamma".toList, false)]
      ["A".toList, "".toList] (by decide)⟩

lemma map_fst_filterSelRows (cols : List Item) (disp : Item → Item) (s : Finset Item) :
    (filterSelRows cols disp s).map Prod.fst
      = (cols.map disp).filter (fun d => decide (d ∈ s)) := by
  induction cols with
  | nil => rfl
  | cons c t ih =>
    by_cases hd : disp c ∈ s <;>
      simp [filterSelRows, List.filterMap_cons, hd, ih, List.filter_cons] <;>
      simpa [filterSelRows] using ih

lemma map_fst_filterMatchRows (cols : List Item) (disp : Item → Item)
    (added : Finset Item) (ft : Item) :
    (filterMatchRows cols disp added ft).map Prod.fst
      = (cols.map disp).filter (fun d =>
          decide (d ∉ added) &&
            decide (ft = [] ∨ containsSub ft (toLowerItem d) = true)) := by
  induction cols with
  | nil => rfl
  | cons c t ih =>
    by_cases h1 : disp c ∈ added
    · simpa [filterMatchRows, List.filterMap_cons, h1, List.filter_cons]
        using (by simpa [filterMatchRows] using ih : _)
    · by_cases h2 : ft = [] ∨ containsSub ft (toLowerItem (disp c)) = true
      · simpa [filterMatchRows, List.filterMap_cons, h1, h2, List.filter_cons]
          using (by simpa [filterMatchRows] using ih : _)
      · simpa [filterMatchRows, List.filterMap_cons, h1, h2, List.filter_cons]
          using (by simpa [filterMatchRows] using ih : _)

lemma toLower_toLower (c : Char) : c.toLower.toLower = c.toLower := by
  unfold Char.toLower
  by_cases h : c.toNat ≥ 65 ∧ c.toNat ≤ 90
  · rw [if_pos h]
    have hv : (c.toNat + 32).isValidChar := by
      rcases h with ⟨h1, h2⟩
      left
      omega
    have ht : (Char.ofNat (c.toNat + 32)).toNat = c.toNat + 32 := by
      rw [Char.ofNat, dif_pos hv]
      rfl
    rw [if_neg]
    rw [ht]
    omega
  · rw [if_neg h, if_neg h]

lemma toLowerItem_idem (s : Item) : toLowerItem (toLowerItem s) = toLowerItem s := by
  simp only [toLowerItem, List.map_map]
  exact List.map_congr_left (fun c _ => toLower_toLower c)

lemma processFilterText_lower (raw : Item) :
    toLowerItem (processFilterText raw) = processFilterText raw := by
  have he : processFilterText raw
      = if toLowerItem (stripItem raw) = "filter...".toList then []
        else toLowerItem (stripItem raw) := rfl
  rw [he]
  split
  · rfl
  · exact toLowerItem_idem _

/-- Modelled from the spec (`set_filter_text` rendering order): every display name
already selected for the axis first, in catalog order, regardless of the filter text;
a separator marker when at least one selected item is shown and the text is
non-empty; then the remaining display names containing the text as a case-insensitive
substring, in catalog order. -/
def specRender (cols : List Item) (disp : Item → Item) (sel : Finset Item)
    (ft : Item) : List Item :=
  ((cols.map disp).filter (fun d => decide (d ∈ sel)))
    ++ (if (cols.map disp).filter (fun d => decide (d ∈ sel)) ≠ [] ∧ ft ≠ []
        then [separatorItem] else [])
    ++ ((cols.map disp).filter (fun d =>
        decide (d ∉ sel) &&
          decide (ft = [] ∨ containsSub (toLowerItem ft) (toLowerItem d) = true)))

lemma mem_map_fst_filterSepRows {sr : Listbox} {ft : Item} {d : Item}
    (h : d ∈ (filterSepRows sr ft).map Prod.fst) : d = separatorItem := by
  rcases List.mem_map.mp h with ⟨r, hr, rfl⟩
  rw [mem_filterSepRows hr]

lemma filterRebuild_render (cols : List Item) (disp : Item → Item) (sel : Finset Item)
    (ft : Item) (hft : toLowerItem ft = ft) (h3 : separatorItem ∉ cols.map disp) :
    (filterRebuild cols disp sel ft).map Prod.fst = specRender cols disp sel ft := by
  unfold filterRebuild specRender
  simp only [List.map_append, map_fst_filterSelRows]
  congr 1
  congr 1
  · have hcond : (filterSelRows cols disp sel ≠ [] ∧ ft ≠ [])
        ↔ ((cols.map disp).filter (fun d => decide (d ∈ sel)) ≠ [] ∧ ft ≠ []) := by
      rw [← map_fst_filterSelRows cols disp sel]
      simp [List.map_eq_nil_iff]
    unfold filterSepRows
    rw [apply_ite (List.map Prod.fst)]
    simp only [List.map_cons, List.map_nil]
    exact if_congr hcond rfl rfl
  · rw [map_fst_filterMatchRows]
    apply List.filter_congr
    intro d hd
    have hdsep : d ≠ separatorItem := fun hds => h3 (hds ▸ hd)
    have hmem : (d ∈ ((cols.map disp).filter (fun e => decide (e ∈ sel))).toFinset ∪
        ((filterSepRows (filterSelRows cols disp sel) ft).map Prod.fst).toFinset)
        ↔ d ∈ sel := by
      simp only [Finset.mem_union, List.mem_toFinset]
      constructor
      · rintro (hmem | hsep)
        · have := List.mem_filter.mp hmem
          simpa using this.2
        · exact absurd (mem_map_fst_filterSepRows hsep) hdsep
      · intro hmem
        exact Or.inl (List.mem_filter.mpr ⟨hd, by simpa using hmem⟩)
    have hbool : decide (d ∉ ((cols.map disp).filter (fun e => decide (e ∈ sel))).toFinset ∪
          ((filterSepRows (filterSelRows cols disp sel) ft).map Prod.fst).toFinset)
        = decide (d ∉ sel) := decide_eq_decide.mpr (not_congr hmem)
    rw [hbool, hft]

lemma specRender_nodup (cols : List Item) (disp : Item → Item) (sel : Finset Item)
    (ft : Item) (h2 : (cols.map disp).Nodup) (h3 : separatorItem ∉ cols.map disp) :
    (specRender cols disp sel ft).Nodup := by
  unfold specRender
  rw [List.nodup_append, List.nodup_append]
  refine ⟨⟨h2.filter _, ?_, ?_⟩, h2.filter _, ?_⟩
  · split <;> simp
  · intro d hdA hdS
    have hds : d = separatorItem := by
      rcases List.mem_ite_nil_right.mp hdS with ⟨-, hmem⟩
      simpa using hmem
    subst hds
    exact h3 (List.mem_of_mem_filter hdA)
  · intro d hd2 hdR
    rcases List.mem_append.mp hd2 with hdA | hdS
    · have hp := (List.mem_filter.mp hdA).2
      have hq := (List.mem_filter.mp hdR).2
      simp only [Bool.and_eq_true, decide_eq_true_eq] at hp hq
      exact hq.1 hp
    · have hds : d = separatorItem := by
        rcases List.mem_ite_nil_right.mp hdS with ⟨-, hmem⟩
        simpa using hmem
      subst hds
      exact h3 (List.mem_of_mem_filter hdR)

lemma filterListbox_render (cols : List Item) (disp : Item → Item) (sel : Finset Item)
    (lb : Listbox) (raw : Item) (h1 : cols ≠ [])
    (h3 : separatorItem ∉ cols.map disp) (h4 : highlightedItems lb ⊆ sel) :
    ((filterListbox cols disp sel lb raw).2).map Prod.fst
      = specRender cols disp sel (processFilterText raw) := by
  have hu : sel ∪ highlightedItems lb = sel := Finset.union_eq_left.mpr h4
  unfold filterListbox
  rw [if_neg h1]
  dsimp only
  rw [hu]
  exact filterRebuild_render cols disp sel (processFilterText raw)
    (processFilterText_lower raw) h3

/-- C5 counterexample: the claim fails on the code in three concrete ways. (1) On the
claim's own example — catalog Alpha/Beta/Gamma, selection Beta, filter "a" — the code
renders [Beta, separator, Alpha, Gamma], not [Beta, separator, Alpha]: "Gamma" also
contains "a" as a case-insensitive substring. (2) With two catalog columns sharing one
display label D and nothing selected, D is rendered twice (the second population loop
never extends `added_items`). (3) With an empty catalog the method leaves the previous
listbox contents untouched instead of producing the claimed rendering. -/
theorem filter_rendering_counterexample :
    ((filterListbox ["Alpha".toList, "Beta".toList, "Gamma".toList] id
        {"Beta".toList} [] "a".toList).2).map Prod.fst
      = ["Beta".toList, separatorItem, "Alpha".toList, "Gamma".toList]
    ∧ ((filterListbox ["Alpha".toList, "Beta".toList, "Gamma".toList] id
        {"Beta".toList} [] "a".toList).2).map Prod.fst
      ≠ ["Beta".toList, separatorItem, "Alpha".toList]
    ∧ ((filterListbox [['X'], ['Y']] (fun _ => ['D']) ∅ [] []).2).map Prod.fst
      = [['D'], ['D']]
    ∧ ¬ (((filterListbox [['X'], ['Y']] (fun _ => ['D']) ∅ [] []).2).map Prod.fst).Nodup
    ∧ (filterListbox [] id ∅ [(['Z'], false)] ['a']).2 = [(['Z'], false)] :=
  ⟨by decide, by decide, by decide, by decide, by decide⟩

/-- C5 (amended): for every non-empty catalog whose display labels are pairwise
distinct and do not include the separator string, and every tracked selection
consistent with the current listbox highlights, the rendered list produced by
`filter_listbox` is: all already-selected display names first (in catalog order, shown
regardless of whether they match), then a separator marker if at least one selected
item is shown and the effective filter text is non-empty, then the remaining display
names containing the text as a case-insensitive substring, in catalog order, with no
item appearing twice; on the claim's example the rendering is
[Beta, separator, Alpha, Gamma], since "Gamma" matches "a" as well. -/
theorem filter_rendering_order (cols : List Item) (disp : Item → Item)
    (sel : Finset Item) (lb : Listbox) (raw : Item) (h1 : cols ≠ [])
    (h2 : (cols.map disp).Nodup) (h3 : separatorItem ∉ cols.map disp)
    (h4 : highlightedItems lb ⊆ sel) :
    ((filterListbox cols disp sel lb raw).2).map Prod.fst
        = specRender cols disp sel (processFilterText raw)
    ∧ (((filterListbox cols disp sel lb raw).2).map Prod.fst).Nodup
    ∧ ((filterListbox ["Alpha".toList, "Beta".toList, "Gamma".toList] id
        {"Beta".toList} [] "a".toList).2).map Prod.fst
      = ["Beta".toList, separatorItem, "Alpha".toList, "Gamma".toList] := by
  have he := filterListbox_render cols disp sel lb raw h1 h3 h4
  refine ⟨he, ?_, by decide⟩
  rw [he]
  exact specRender_nodup cols disp sel (processFilterText raw) h2 h3

/-- Witness for `filter_rendering_order` on the claim's example: catalog
Alpha/Beta/Gamma with identity display map, Beta selected, empty listbox, filter
text "a". -/
theorem filter_rendering_order_witness :
    (["Alpha".toList, "Beta".toList, "Gamma".toList] : List Item) ≠ []
    ∧ ((["Alpha".toList, "Beta".toList, "Gamma".toList] : List Item).map id).Nodup
    ∧ separatorItem ∉ (["Alpha".toList, "Beta".toList, "Gamma".toList] : List Item).map id
    ∧ highlightedItems [] ⊆ ({"Beta".toList} : Finset Item)
    ∧ (((filterListbox ["Alpha".toList, "Beta".toList, "Gamma".toList] id
          {"Beta".toList} [] "a".toList).2).map Prod.fst
        = specRender ["Alpha".toList, "Beta".toList, "Gamma".toList] id
            {"Beta".toList} (processFilterText "a".toList)
      ∧ (((filterListbox ["Alpha".toList, "Beta".toList, "Gamma".toList] id
          {"Beta".toList} [] "a".toList).2).map Prod.fst).Nodup
      ∧ ((filterListbox ["Alpha".toList, "Beta".toList, "Gamma".toList] id
          {"Beta".toList} [] "a".toList).2).map Prod.fst
        = ["Beta".toList, separatorItem, "Alpha".toList, "Gamma".toList]) :=
  ⟨by decide, by decide, by decide, by decide,
    filter_rendering_order ["Alpha".toList, "Beta".toList, "Gamma".toList] id
      {"Beta".toList} [] "a".toList (by decide) (by decide) (by decide) (by decide)⟩

/-! ### Time-window filtering (`plotter.py` `_prepare_data`/`plot`,
`calculations.py` `_apply_time_window`) -/

/-- The shared inclusive window predicate: keep rows with `time >= start` when a start
bound is given, then rows with `time <= end` when an end bound is given
(`plotter.py` lines 273-296, `calculations.py` lines 127-149). Rows are represented by
their already-parsed, timezone-resolved timestamps. -/
def applyTimeWindow (rows : List ℚ) (startTime endTime : Option ℚ) : List ℚ :=
  match endTime with
  | some b =>
    (match startTime with
      | some a => rows.filter (fun t => decide (a ≤ t))
      | none => rows).filter (fun t => decide (t ≤ b))
  | none =>
    match startTime with
    | some a => rows.filter (fun t => decide (a ≤ t))
    | none => rows

/-- The error raised by `SensorPlotter.plot` lines 154-155. -/
inductive PlotError where
  | emptyWindow
  deriving DecidableEq

/-- The time-window stage of `SensorPlotter.plot`: `_prepare_data` filters the rows
(smoothing does not change the row count) and `plot` raises "No data in the selected
time window." exactly when the filtered frame is empty. -/
def plotTimeWindowStage (rows : List ℚ) (startTime endTime : Option ℚ) :
    Except PlotError (List ℚ) :=
  if applyTimeWindow rows startTime endTime = [] then .error .emptyWindow
  else .ok (applyTimeWindow rows startTime endTime)

/-- The `CO2CalculationError` cases of the windowing stage of
`CO2CaptureCalculator.calculate` (lines 63-77): "No data available for calculation."
for an empty input frame, "No data within the selected time window." for an empty
filter result. -/
inductive CO2Error where
  | noData
  | emptyWindow
  deriving DecidableEq

/-- Lines 63-77 of `CO2CaptureCalculator.calculate`: empty input short-circuits before
filtering; otherwise the window filter runs and an empty result raises the
empty-window error, else the filtered rows flow on to the computation. -/
def co2WindowStage (rows : List ℚ) (startTime endTime : Option ℚ) :
    Except CO2Error (List ℚ) :=
  if rows = [] then .error .noData
  else if applyTimeWindow rows startTime endTime = [] then .error .emptyWindow
  else .ok (applyTimeWindow rows startTime endTime)

/-- C8: the time-window stage fails with the empty-window error exactly when the
inclusive start/end predicate keeps zero rows — for the plotter unconditionally, and
for the CO₂ calculator whenever the input frame is non-empty (an empty input frame
short-circuits earlier with the distinct "no data" error); and membership in the
filtered rows is exactly the inclusive window predicate. -/
theorem empty_window_error (rows : List ℚ) (startTime endTime : Option ℚ) :
    (plotTimeWindowStage rows startTime endTime = .error .emptyWindow
      ↔ applyTimeWindow rows startTime endTime = [])
    ∧ (rows ≠ [] →
        (co2WindowStage rows startTime endTime = .error .emptyWindow
          ↔ applyTimeWindow rows startTime endTime = []))
    ∧ (∀ t, t ∈ applyTimeWindow rows startTime endTime ↔
        t ∈ rows ∧ (∀ a, startTime = some a → a ≤ t)
          ∧ (∀ b, endTime = some b → t ≤ b)) := by
  refine ⟨?_, ?_, ?_⟩
  · unfold plotTimeWindowStage
    split
    · rename_i h
      exact ⟨fun _ => h, fun _ => rfl⟩
    · rename_i h
      exact ⟨fun hc => absurd hc (by simp), fun hc => absurd hc h⟩
  · intro hrows
    unfold co2WindowStage
    rw [if_neg hrows]
    split
    · rename_i h
      exact ⟨fun _ => h, fun _ => rfl⟩
    · rename_i h
      exact ⟨fun hc => absurd hc (by simp), fun hc => absurd hc h⟩
  · intro t
    rcases startTime with _ | a <;> rcases endTime with _ | b <;>
      simp [applyTimeWindow, List.mem_filter, and_assoc]
    exact fun _ => ⟨fun hh => ⟨hh.2, hh.1⟩, fun hh => ⟨hh.2, hh.1⟩⟩

/-- Witness for `empty_window_error`: the three timestamps 600, 605, 610 with the
inclusive window [600, 610] — no error, and all three rows retained. -/
theorem empty_window_error_witness :
    ([600, 605, 610] : List ℚ) ≠ []
    ∧ (co2WindowStage [600, 605, 610] (some 600) (some 610) = .error .emptyWindow
        ↔ applyTimeWindow [600, 605, 610] (some 600) (some 610) = [])
    ∧ applyTimeWindow [600, 605, 610] (some 600) (some 610) = [600, 605, 610] :=
  ⟨by decide,
    (empty_window_error [600, 605, 610] (some 600) (some 610)).2.1 (by decide),
    by decide⟩

/-! ### Smoothing (`plotter.py` `_prepare_data`, lines 298-312) -/

/-- Lines 300-302: an even smoothing window is bumped to the next odd integer. -/
def smoothedWindowSize (w : ℕ) : ℕ := if w % 2 = 0 then w + 1 else w

/-- The indices of the centered window of half-width `k` around `i`, clipped to the
column of length `n` — pandas `rolling(window, center=True)` with odd
`window = 2k + 1`. -/
def windowIndices (n k i : ℕ) : List ℕ :=
  (List.range n).filter (fun j => decide (i - k ≤ j) && decide (j ≤ i + k))

/-- The parseable samples inside the clipped window: `min_periods=1` averages over
however many non-NaN samples the window holds. -/
def windowValues (xs : List (Option ℚ)) (k i : ℕ) : List ℚ :=
  (windowIndices xs.length k i).filterMap (fun j => xs.getD j none)

/-- One output sample of
`pd.to_numeric(df[col], errors="coerce").rolling(window, min_periods=1,
center=True).mean()` for odd `window = 2k + 1`: the mean of the parseable samples in
the clipped centered window, or NaN when the window holds none. -/
def rollingMeanAt (xs : List (Option ℚ)) (k i : ℕ) : Option ℚ :=
  match windowValues xs k i with
  | [] => none
  | vs => some (vs.sum / (vs.length : ℚ))

/-- The smoothing stage of `_prepare_data` (lines 298-308) applied to one selected
column. -/
def applySmoothing (w : ℕ) (xs : List (Option ℚ)) : List (Option ℚ) :=
  (List.range xs.length).map (rollingMeanAt xs (smoothedWindowSize w / 2))

/-- C3 counterexample: with requested window 4 (forced to 5) on the column [0, 0, 3],
the centered rolling mean with `min_periods=1` yields 1 at index 0 — the mean of all
three samples, because the centered window [i-2, i+2] clipped to the column covers
indices 0, 1 and 2 — whereas the claim's value, the mean of indices 0 and 1 only,
is 0. -/
theorem smoothing_boundary_counterexample :
    applySmoothing 4 [some 0, some 0, some 3] = [some 1, some 1, some 1]
    ∧ ((0 : ℚ) + 0) / 2 = 0
    ∧ (1 : ℚ) ≠ 0 := by
  have h : applySmoothing 4 [some 0, some 0, some 3]
      = [some ((0 + (0 + (3 + 0)) : ℚ) / ((3 : ℕ) : ℚ)),
         some ((0 + (0 + (3 + 0)) : ℚ) / ((3 : ℕ) : ℚ)),
         some ((0 + (0 + (3 + 0)) : ℚ) / ((3 : ℕ) : ℚ))] := rfl
  rw [h]
  norm_num

/-- C3 (amended): smoothing is a centered moving average per numeric column; an even
requested window is coerced to the next odd integer (so 4 becomes 5); at the
boundaries the average is over however many samples are available (minimum period 1,
no zero padding) — dividing by the number of available samples, not the window size.
For requested window 4 on a column of length 3, every smoothed value, including
index 0, is the mean of all three samples: the centered window of half-width 2 around
index 0 reaches indices 0-2 before clipping removes nothing further. -/
theorem smoothing_boundary (w : ℕ) (hw : w % 2 = 0) :
    smoothedWindowSize w = w + 1
    ∧ smoothedWindowSize w % 2 = 1
    ∧ (∀ a b c : ℚ, applySmoothing 4 [some a, some b, some c]
        = [some ((a + b + c) / 3), some ((a + b + c) / 3),
           some ((a + b + c) / 3)]) := by
  refine ⟨by simp [smoothedWindowSize, hw], by simp [smoothedWindowSize, hw]; omega, ?_⟩
  intro a b c
  show (List.range 3).map
      (rollingMeanAt [some a, some b, some c] (smoothedWindowSize 4 / 2)) = _
  have h3 : List.range 3 = [0, 1, 2] := rfl
  rw [h3]
  simp only [List.map_cons, List.map_nil]
  have h0 : rollingMeanAt [some a, some b, some c] (smoothedWindowSize 4 / 2) 0
      = some ((a + (b + (c + 0))) / ((3 : ℕ) : ℚ)) := rfl
  have h1 : rollingMeanAt [some a, some b, some c] (smoothedWindowSize 4 / 2) 1
      = some ((a + (b + (c + 0))) / ((3 : ℕ) : ℚ)) := rfl
  have h2 : rollingMeanAt [some a, some b, some c] (smoothedWindowSize 4 / 2) 2
      = some ((a + (b + (c + 0))) / ((3 : ℕ) : ℚ)) := rfl
  rw [h0, h1, h2]
  norm_num
  ring

/-- Witness for `smoothing_boundary` at the claim's requested window 4. -/
theorem smoothing_boundary_witness :
    (4 : ℕ) % 2 = 0
    ∧ (smoothedWindowSize 4 = 4 + 1
      ∧ smoothedWindowSize 4 % 2 = 1
      ∧ (∀ a b c : ℚ, applySmoothing 4 [some a, some b, some c]
          = [some ((a + b + c) / 3), some ((a + b + c) / 3),
             some ((a + b + c) / 3)])) :=
  ⟨by decide, smoothing_boundary 4 (by decide)⟩

/-! ### Time-range selection machine (`time_selection.py`, `TimeSelectionHandler`) -/

/-- The mutable selection state of `TimeSelectionHandler`: the capture-mode flag
(`time_selection_mode`) and the two chosen timestamps. -/
structure TimeSelectionState where
  timeSelectionMode : Bool
  selectedTimeStart : Option ℚ
  selectedTimeEnd : Option ℚ
  deriving DecidableEq

/-- `toggle_mode` (lines 70-84): flips the capture flag, touching nothing else. -/
def toggleMode (s : TimeSelectionState) : TimeSelectionState :=
  { s with timeSelectionMode := !s.timeSelectionMode }

/-- `on_graph_click` (lines 102-224). The click is ignored when capture mode is off;
`clickedTime = none` bundles the remaining guard clauses (click outside the axes, no
data loaded, failed coordinate conversion), all of which return without change. A
resolved click with no start recorded sets the start; with a start but no end it sets
the end and auto-disables capture mode; with both set it discards the old range and
records the clicked position as a fresh start. -/
def onGraphClick (s : TimeSelectionState) (clickedTime : Option ℚ) :
    TimeSelectionState :=
  if !s.timeSelectionMode then s
  else
    match clickedTime with
    | none => s
    | some ts =>
      match s.selectedTimeStart, s.selectedTimeEnd with
      | none, _ => { s with selectedTimeStart := some ts }
      | some _, none =>
          { s with selectedTimeEnd := some ts, timeSelectionMode := false }
      | some _, some _ =>
          { s with selectedTimeStart := some ts, selectedTimeEnd := none }

/-- `clear_selection` (lines 272-292): unconditionally discards both timestamps (the
capture flag is not touched). -/
def clearSelection (s : TimeSelectionState) : TimeSelectionState :=
  { s with selectedTimeStart := none, selectedTimeEnd := none }

/-- The abstract phase of the two-click machine, read off the recorded timestamps. -/
inductive SelectionPhase where
  | idle
  | startChosen
  | rangeChosen
  deriving DecidableEq

/-- A state with no start is `Idle`, a start without an end is `StartChosen`, and
both timestamps recorded is `RangeChosen`. -/
def phase (s : TimeSelectionState) : SelectionPhase :=
  match s.selectedTimeStart, s.selectedTimeEnd with
  | none, _ => .idle
  | some _, none => .startChosen
  | some _, some _ => .rangeChosen

/-- The reachable states of the machine: an end timestamp is only ever recorded while
a start is present (`clear_selection` discards both, and the end is only set in the
second-click branch). -/
def WellFormed (s : TimeSelectionState) : Prop :=
  s.selectedTimeStart = none → s.selectedTimeEnd = none

/-- C6: with capture mode on, a resolved click drives the machine
Idle → StartChosen (start recorded) → RangeChosen (end recorded, capture mode
auto-disabled with no third click needed) → StartChosen (old end discarded, clicked
position recorded as the fresh start); `clear_selection` returns the machine to Idle
from any state, discarding both timestamps; and an unresolved click changes
nothing. -/
theorem time_range_machine_cycle (s : TimeSelectionState) (t : ℚ)
    (hm : s.timeSelectionMode = true) (hwf : WellFormed s) :
    (phase s = .idle →
      phase (onGraphClick s (some t)) = .startChosen
        ∧ (onGraphClick s (some t)).selectedTimeStart = some t)
    ∧ (phase s = .startChosen →
        phase (onGraphClick s (some t)) = .rangeChosen
          ∧ (onGraphClick s (some t)).selectedTimeStart = s.selectedTimeStart
          ∧ (onGraphClick s (some t)).selectedTimeEnd = some t
          ∧ (onGraphClick s (some t)).timeSelectionMode = false)
    ∧ (phase s = .rangeChosen →
        phase (onGraphClick s (some t)) = .startChosen
          ∧ (onGraphClick s (some t)).selectedTimeStart = some t
          ∧ (onGraphClick s (some t)).selectedTimeEnd = none)
    ∧ (phase (clearSelection s) = .idle
        ∧ (clearSelection s).selectedTimeStart = none
        ∧ (clearSelection s).selectedTimeEnd = none)
    ∧ onGraphClick s none = s
    ∧ (WellFormed (onGraphClick s (some t)) ∧ WellFormed (clearSelection s)
        ∧ WellFormed (toggleMode s)) := by
  rcases s with ⟨mode, st, en⟩
  dsimp only at hm
  subst hm
  rcases st with _ | a <;> rcases en with _ | b
  · simp [onGraphClick, clearSelection, toggleMode, phase, WellFormed]
  · exact absurd (hwf rfl) (by simp)
  · simp [onGraphClick, clearSelection, toggleMode, phase, WellFormed]
  · simp [onGraphClick, clearSelection, toggleMode, phase, WellFormed]

/-- Witness for `time_range_machine_cycle` at the fresh state (capture on, nothing
recorded) and click position 5. -/
theorem time_range_machine_cycle_witness :
    (⟨true, none, none⟩ : TimeSelectionState).timeSelectionMode = true
    ∧ ((phase ⟨true, none, none⟩ = .idle →
        phase (onGraphClick ⟨true, none, none⟩ (some 5)) = .startChosen
          ∧ (onGraphClick ⟨true, none, none⟩ (some 5)).selectedTimeStart = some 5)
      ∧ (phase ⟨true, none, none⟩ = .startChosen →
          phase (onGraphClick ⟨true, none, none⟩ (some 5)) = .rangeChosen
            ∧ (onGraphClick ⟨true, none, none⟩ (some 5)).selectedTimeStart
              = (⟨true, none, none⟩ : TimeSelectionState).selectedTimeStart
            ∧ (onGraphClick ⟨true, none, none⟩ (some 5)).selectedTimeEnd = some 5
            ∧ (onGraphClick ⟨true, none, none⟩ (some 5)).timeSelectionMode = false)
      ∧ (phase ⟨true, none, none⟩ = .rangeChosen →
          phase (onGraphClick ⟨true, none, none⟩ (some 5)) = .startChosen
            ∧ (onGraphClick ⟨true, none, none⟩ (some 5)).selectedTimeStart = some 5
            ∧ (onGraphClick ⟨true, none, none⟩ (some 5)).selectedTimeEnd = none)
      ∧ (phase (clearSelection ⟨true, none, none⟩) = .idle
          ∧ (clearSelection ⟨true, none, none⟩).selectedTimeStart = none
          ∧ (clearSelection ⟨true, none, none⟩).selectedTimeEnd = none)
      ∧ onGraphClick ⟨true, none, none⟩ none = ⟨true, none, none⟩
      ∧ (WellFormed (onGraphClick ⟨true, none, none⟩ (some 5))
          ∧ WellFormed (clearSelection ⟨true, none, none⟩)
          ∧ WellFormed (toggleMode ⟨true, none, none⟩))) :=
  ⟨rfl, time_range_machine_cycle ⟨true, none, none⟩ 5 rfl (fun _ => rfl)⟩

/-! ### Cycle background colors (`cycle_backgrounds.py` lines 84-94) -/

/-- An abstract deterministic pseudo-random generator: a state type `σ` with a seeding
function and a next-sample function. `np.random.seed` / `np.random.uniform(0.2, 0.9)`
instantiate it; only seeding and sequential drawing matter to the claim. -/
structure Rng (σ : Type) where
  seed : ℕ → σ
  next : σ → ℚ × σ

/-- Lines 86-94: one color per cycle — three sequential uniform draws for R, G and B,
with the alpha channel fixed at 0.15. -/
def drawColors {σ : Type} (R : Rng σ) : ℕ → σ → List (ℚ × ℚ × ℚ × ℚ)
  | 0, _ => []
  | k + 1, g =>
    ((R.next g).1, (R.next (R.next g).2).1,
      (R.next (R.next (R.next g).2).2).1, 3 / 20)
      :: drawColors R k (R.next (R.next (R.next g).2).2).2

/-- The color generation of `add_cycle_backgrounds` (lines 84-94): whatever state `g`
the global generator is in, `np.random.seed(42)` resets it before any draw, and one
color is drawn per detected cycle (`len(cycle_starts) - 1` after the end-of-data entry
is appended, i.e. the number of cycle starts). -/
def addCycleBackgroundColors {σ : Type} (R : Rng σ) (_g : σ) (c : Counter) :
    List (ℚ × ℚ × ℚ × ℚ) :=
  drawColors R (cycleStarts c).length (R.seed 42)

lemma drawColors_alpha {σ : Type} (R : Rng σ) :
    ∀ (k : ℕ) (g : σ), ∀ col ∈ drawColors R k g, col.2.2.2 = 3 / 20 := by
  intro k
  induction k with
  | zero =>
    intro g col hcol
    simp [drawColors] at hcol
  | succ n ih =>
    intro g col hcol
    rw [drawColors] at hcol
    rcases List.mem_cons.mp hcol with rfl | hcol
    · rfl
    · exact ih _ col hcol

/-- C9: cycle coloring is deterministic. Because the generator is reseeded with the
fixed seed 42 on every call, the incoming generator state is irrelevant, and any two
runs over data with the same cycle count produce identical color lists; every color
carries the same fixed alpha 0.15. -/
theorem cycle_colors_deterministic {σ : Type} (R : Rng σ) (g1 g2 : σ)
    (c1 c2 : Counter) (h : (cycleStarts c1).length = (cycleStarts c2).length) :
    addCycleBackgroundColors R g1 c1 = addCycleBackgroundColors R g2 c2
    ∧ ∀ col ∈ addCycleBackgroundColors R g1 c1, col.2.2.2 = 3 / 20 := by
  constructor
  · unfold addCycleBackgroundColors
    rw [h]
  · intro col hcol
    exact drawColors_alpha R (cycleStarts c1).length (R.seed 42) col hcol

/-- Witness for `cycle_colors_deterministic`: a counting generator, two different
incoming states, and the two-cycle counters [1, 0] and [5, 2]. -/
theorem cycle_colors_deterministic_witness :
    (cycleStarts [some 1, some 0]).length = (cycleStarts [some 5, some 2]).length
    ∧ (addCycleBackgroundColors ⟨id, fun n => ((n : ℚ), n + 1)⟩ 7 [some 1, some 0]
        = addCycleBackgroundColors ⟨id, fun n => ((n : ℚ), n + 1)⟩ 99 [some 5, some 2]
      ∧ ∀ col ∈ addCycleBackgroundColors ⟨id, fun n => ((n : ℚ), n + 1)⟩ 7
          [some 1, some 0], col.2.2.2 = 3 / 20) :=
  ⟨by decide,
    cycle_colors_deterministic ⟨id, fun n => ((n : ℚ), n + 1)⟩ 7 99
      [some 1, some 0] [some 5, some 2] (by decide)⟩

/-! ### Hover point resolver (`hover_tooltip.py`, `HoverTooltipHandler.on_graph_hover`) -/

/-- One plotted line as the hover handler reads it back from an axis: its legend
label and its parallel x/y sample arrays (matplotlib keeps them the same length; the
model pairs them with `zip`). X values are matplotlib date numbers, modelled by ℚ. -/
structure RenderedLine where
  label : Item
  xs : List ℚ
  ys : List ℚ

/-- Python `label.startswith('_')` (lines 132 and 164): matplotlib's convention for
artists hidden from the legend, skipped as hover candidates. -/
def startsWithUnderscore (s : Item) : Bool :=
  match s with
  | [] => false
  | ch :: _ => ch = '_'

/-- Lines 132 and 164: a line is skipped when it has no samples or carries an
underscore label. -/
def skipLine (l : RenderedLine) : Bool :=
  l.xs.isEmpty || startsWithUnderscore l.label

/-- Lines 140-146 and 172-178: `idx = np.argmin(np.abs(xdata - cursor_x))` and the
sample `(xdata[idx], ydata[idx])` with its distance. `np.argmin` keeps the first index
attaining the minimum, so the head of the list wins ties. -/
def nearestPoint (cursor : ℚ) : List (ℚ × ℚ) → Option (ℚ × ℚ × ℚ)
  | [] => none
  | p :: rest =>
    match nearestPoint cursor rest with
    | none => some (p.1, p.2, |p.1 - cursor|)
    | some q => if |p.1 - cursor| ≤ q.2.2 then some (p.1, p.2, |p.1 - cursor|) else some q

lemma nearestPoint_eq_none (cursor : ℚ) (pts : List (ℚ × ℚ)) :
    nearestPoint cursor pts = none ↔ pts = [] := by
  cases pts with
  | nil => simp [nearestPoint]
  | cons p rest =>
    simp only [nearestPoint]
    rcases h : nearestPoint cursor rest with _ | q <;> simp
    split <;> simp

lemma nearestPoint_spec (cursor : ℚ) : ∀ (pts : List (ℚ × ℚ)) (x y d : ℚ),
    nearestPoint cursor pts = some (x, y, d) →
      (x, y) ∈ pts ∧ d = |x - cursor| ∧ ∀ p ∈ pts, d ≤ |p.1 - cursor| := by
  intro pts
  induction pts with
  | nil => intro x y d h; simp [nearestPoint] at h
  | cons p rest ih =>
    intro x y d h
    rw [nearestPoint] at h
    rcases hrec : nearestPoint cursor rest with _ | q <;> rw [hrec] at h <;>
      dsimp only at h
    · have hr : rest = [] := (nearestPoint_eq_none cursor rest).mp hrec
      subst hr
      simp only [Option.some.injEq, Prod.mk.injEq] at h
      rcases h with ⟨hx, hy, hd⟩
      subst hx; subst hy; subst hd
      refine ⟨by simp, rfl, ?_⟩
      intro p' hp'
      simp at hp'
      subst hp'
      exact le_refl _
    · rcases ih q.1 q.2.1 q.2.2 (by rw [hrec]) with ⟨hqmem, hqd, hqle⟩
      by_cases hle : |p.1 - cursor| ≤ q.2.2
      · rw [if_pos hle] at h
        simp only [Option.some.injEq, Prod.mk.injEq] at h
        rcases h with ⟨hx, hy, hd⟩
        subst hx; subst hy; subst hd
        refine ⟨by simp, rfl, ?_⟩
        intro p' hp'
        rcases List.mem_cons.mp hp' with rfl | hp'
        · exact le_refl _
        · exact le_trans hle (hqle p' hp')
      · rw [if_neg hle] at h
        simp only [Option.some.injEq] at h
        subst h
        refine ⟨?_, hqd, ?_⟩
        · exact List.mem_cons_of_mem p (by simpa using hqmem)
        · intro p' hp'
          rcases List.mem_cons.mp hp' with rfl | hp'
          · exact le_of_lt (lt_of_not_le hle)
          · exact hqle p' hp'

lemma foldl_min_assoc : ∀ (t : List ℚ) (a b : ℚ),
    List.foldl min (min a b) t = min a (List.foldl min b t) := by
  intro t
  induction t with
  | nil => intro a b; rfl
  | cons c t ih =>
    intro a b
    show List.foldl min (min (min a b) c) t = min a (List.foldl min (min b c) t)
    rw [min_assoc, ih]

lemma min?_cons_eq (a : ℚ) (l : List ℚ) :
    (a :: l).min? = some (match l.min? with | none => a | some m => min a m) := by
  cases l with
  | nil => rfl
  | cons b t =>
    show some (List.foldl min a (b :: t)) = _
    show some (List.foldl min (min a b) t) = _
    rw [foldl_min_assoc]
    rfl

lemma nearestPoint_dist_minimum (cursor : ℚ) : ∀ pts : List (ℚ × ℚ),
    (nearestPoint cursor pts).map (fun q => q.2.2)
      = (pts.map (fun p => |p.1 - cursor|)).min? := by
  intro pts
  induction pts with
  | nil => rfl
  | cons p rest ih =>
    rw [List.map_cons, min?_cons_eq, nearestPoint]
    rcases hrec : nearestPoint cursor rest with _ | q <;> rw [hrec] at ih <;>
      dsimp only
    · rw [← ih]
      rfl
    · rw [← ih]
      simp only [Option.map_some']
      by_cases hle : |p.1 - cursor| ≤ q.2.2
      · rw [if_pos hle]
        simp [min_eq_left hle]
      · rw [if_neg hle]
        simp [min_eq_right (le_of_lt (lt_of_not_le hle))]

/-- One `hover_data` entry (lines 148-155): the nearest sample of one series. -/
structure HoverCandidate where
  label : Item
  x : ℚ
  y : ℚ
  axis : Bool
  deriving DecidableEq

/-- The per-series nearest-sample distance of one (line, axis) pair: the smallest
`|x - cursor|` over its samples, `none` for skipped lines. -/
def lineNearestDist (cursor : ℚ) (al : RenderedLine × Bool) : Option ℚ :=
  if skipLine al.1 then none
  else ((al.1.xs.zip al.1.ys).map (fun p => |p.1 - cursor|)).min?

/-- The `hover_data` entry contributed by one (line, axis) pair (lines 148-155 and
180-187): the nearest sample with the line's label and axis. -/
def lineCandidate (cursor : ℚ) (al : RenderedLine × Bool) : Option HoverCandidate :=
  if skipLine al.1 then none
  else
    match nearestPoint cursor (al.1.xs.zip al.1.ys) with
    | none => none
    | some q => some ⟨al.1.label, q.1, q.2.1, al.2⟩

/-- All per-series nearest distances, in processing order. -/
def seriesDistances (cursor : ℚ) (lines : List (RenderedLine × Bool)) : List ℚ :=
  lines.filterMap (lineNearestDist cursor)

/-- One iteration of the candidate loops (lines 126-187): a non-skipped line with at
least one sample appends its candidate to `hover_data` and lowers the running
`(min_distance, nearest_x)` pair when its distance is strictly smaller (so the first
series to attain the minimum keeps the `nearest_x` designation). -/
def scanLine (cursor : ℚ) (st : Option (ℚ × ℚ) × List HoverCandidate)
    (al : RenderedLine × Bool) : Option (ℚ × ℚ) × List HoverCandidate :=
  if skipLine al.1 then st
  else
    match nearestPoint cursor (al.1.xs.zip al.1.ys) with
    | none => st
    | some q =>
      (match st.1 with
        | none => some (q.2.2, q.1)
        | some b => if q.2.2 < b.1 then some (q.2.2, q.1) else some b,
       st.2 ++ [⟨al.1.label, q.1, q.2.1, al.2⟩])

/-- Both loops run over the left-axis lines then the right-axis lines with
`min_distance` starting at infinity (`none`) and `hover_data` empty. -/
def scanLines (cursor : ℚ) (lines : List (RenderedLine × Bool)) :
    Option (ℚ × ℚ) × List HoverCandidate :=
  lines.foldl (scanLine cursor) (none, [])

lemma scanLine_snd (cursor : ℚ) (st : Option (ℚ × ℚ) × List HoverCandidate)
    (al : RenderedLine × Bool) :
    (scanLine cursor st al).2 = st.2 ++ (lineCandidate cursor al).toList := by
  unfold scanLine lineCandidate
  by_cases hs : skipLine al.1 = true
  · rw [if_pos hs, if_pos hs]
    simp
  · rw [if_neg hs, if_neg hs]
    rcases hn : nearestPoint cursor (al.1.xs.zip al.1.ys) with _ | q <;> dsimp only <;> simp

lemma scanLine_fst_none (cursor : ℚ) (st : Option (ℚ × ℚ) × List HoverCandidate)
    (al : RenderedLine × Bool) :
    (scanLine cursor st al).1 = none ↔ st.1 = none ∧ lineNearestDist cursor al = none := by
  unfold scanLine lineNearestDist
  by_cases hs : skipLine al.1 = true
  · rw [if_pos hs, if_pos hs]
    simp
  · rw [if_neg hs, if_neg hs]
    rcases hn : nearestPoint cursor (al.1.xs.zip al.1.ys) with _ | q <;> dsimp only
    · have := nearestPoint_dist_minimum cursor (al.1.xs.zip al.1.ys)
      rw [hn] at this
      simp only [Option.map_none'] at this
      rw [← this]
      simp
    · have := nearestPoint_dist_minimum cursor (al.1.xs.zip al.1.ys)
      rw [hn] at this
      simp only [Option.map_some'] at this
      rw [← this]
      rcases hb : st.1 with _ | b <;> dsimp only <;> simp
      split <;> simp

lemma scan_snd (cursor : ℚ) : ∀ (lines : List (RenderedLine × Bool))
    (st : Option (ℚ × ℚ) × List HoverCandidate),
    (lines.foldl (scanLine cursor) st).2
      = st.2 ++ lines.filterMap (lineCandidate cursor) := by
  intro lines
  induction lines with
  | nil => intro st; simp
  | cons al rest ih =>
    intro st
    rw [List.foldl_cons, ih, scanLine_snd, List.filterMap_cons]
    rcases lineCandidate cursor al with _ | c <;> simp

lemma scan_fst_none (cursor : ℚ) : ∀ (lines : List (RenderedLine × Bool))
    (st : Option (ℚ × ℚ) × List HoverCandidate),
    ((lines.foldl (scanLine cursor) st).1 = none
      ↔ st.1 = none ∧ seriesDistances cursor lines = []) := by
  intro lines
  induction lines with
  | nil => intro st; simp [seriesDistances]
  | cons al rest ih =>
    intro st
    rw [List.foldl_cons, ih, scanLine_fst_none]
    unfold seriesDistances
    rw [List.filterMap_cons]
    rcases lineNearestDist cursor al with _ | d <;> simp [seriesDistances, and_assoc]

lemma scanLine_fst_le (cursor : ℚ) (st : Option (ℚ × ℚ) × List HoverCandidate)
    (al : RenderedLine × Bool) :
    (∀ b, st.1 = some b → ∃ b2, (scanLine cursor st al).1 = some b2 ∧ b2.1 ≤ b.1)
    ∧ (∀ d, lineNearestDist cursor al = some d →
        ∃ b2, (scanLine cursor st al).1 = some b2 ∧ b2.1 ≤ d) := by
  unfold scanLine lineNearestDist
  by_cases hs : skipLine al.1 = true
  · rw [if_pos hs, if_pos hs]
    constructor
    · intro b hb; exact ⟨b, hb, le_refl _⟩
    · intro d hd; simp at hd
  · rw [if_neg hs, if_neg hs]
    have hbridge := nearestPoint_dist_minimum cursor (al.1.xs.zip al.1.ys)
    rcases hn : nearestPoint cursor (al.1.xs.zip al.1.ys) with _ | q <;>
      rw [hn] at hbridge <;> dsimp only
    · simp only [Option.map_none'] at hbridge
      rw [← hbridge]
      constructor
      · intro b hb; exact ⟨b, hb, le_refl _⟩
      · intro d hd; simp at hd
    · simp only [Option.map_some'] at hbridge
      rw [← hbridge]
      constructor
      · intro b hb
        rw [hb]
        dsimp only
        by_cases hlt : q.2.2 < b.1
        · rw [if_pos hlt]
          exact ⟨(q.2.2, q.1), rfl, le_of_lt hlt⟩
        · rw [if_neg hlt]
          exact ⟨b, rfl, le_refl _⟩
      · intro d hd
        have hdq : d = q.2.2 := by
          have := hd.symm
          simpa using this
        subst hdq
        rcases hb : st.1 with _ | b <;> dsimp only
        · exact ⟨(q.2.2, q.1), rfl, le_refl _⟩
        · by_cases hlt : q.2.2 < b.1
          · rw [if_pos hlt]
            exact ⟨(q.2.2, q.1), rfl, le_refl _⟩
          · rw [if_neg hlt]
            exact ⟨b, rfl, le_of_not_lt hlt⟩

lemma scan_fst_le (cursor : ℚ) : ∀ (lines : List (RenderedLine × Bool))
    (st : Option (ℚ × ℚ) × List HoverCandidate) (md nx : ℚ),
    (lines.foldl (scanLine cursor) st).1 = some (md, nx) →
      (∀ d ∈ seriesDistances cursor lines, md ≤ d)
      ∧ (∀ b, st.1 = some b → md ≤ b.1) := by
  intro lines
  induction lines with
  | nil =>
    intro st md nx h
    refine ⟨by simp [seriesDistances], ?_⟩
    intro b hb
    simp only [List.foldl_nil] at h
    obtain rfl := Option.some.inj (h.symm.trans hb)
    exact le_refl _
  | cons al rest ih =>
    intro st md nx h
    rw [List.foldl_cons] at h
    rcases ih (scanLine cursor st al) md nx h with ⟨hrest, hstep⟩
    constructor
    · intro d hd
      unfold seriesDistances at hd
      rw [List.filterMap_cons] at hd
      rcases hal : lineNearestDist cursor al with _ | d0 <;> rw [hal] at hd
      · exact hrest d hd
      · rcases List.mem_cons.mp hd with rfl | hd
        · rcases (scanLine_fst_le cursor st al).2 d hal with ⟨b2, hb2, hb2le⟩
          exact le_trans (hstep b2 hb2) hb2le
        · exact hrest d hd
    · intro b hb
      rcases (scanLine_fst_le cursor st al).1 b hb with ⟨b2, hb2, hb2le⟩
      exact le_trans (hstep b2 hb2) hb2le

lemma scanLine_fst_cases (cursor : ℚ) (st : Option (ℚ × ℚ) × List HoverCandidate)
    (al : RenderedLine × Bool) (md nx : ℚ)
    (h : (scanLine cursor st al).1 = some (md, nx)) :
    st.1 = some (md, nx)
      ∨ (lineNearestDist cursor al = some md
          ∧ ∃ c, lineCandidate cursor al = some c ∧ c.x = nx) := by
  unfold scanLine at h
  unfold lineNearestDist lineCandidate
  by_cases hs : skipLine al.1 = true
  · rw [if_pos hs] at h
    exact Or.inl h
  · rw [if_neg hs] at h
    rw [if_neg hs, if_neg hs]
    have hbridge := nearestPoint_dist_minimum cursor (al.1.xs.zip al.1.ys)
    rcases hn : nearestPoint cursor (al.1.xs.zip al.1.ys) with _ | q <;>
      rw [hn] at h hbridge <;> dsimp only at h ⊢
    · exact Or.inl h
    · simp only [Option.map_some'] at hbridge
      rcases hb : st.1 with _ | b <;> rw [hb] at h <;> dsimp only at h
      · obtain ⟨hmd, hnx⟩ := Prod.mk.injEq .. ▸ Option.some.inj h
        refine Or.inr ⟨by rw [← hbridge, hmd], ⟨al.1.label, q.1, q.2.1, al.2⟩, rfl, hnx⟩
      · by_cases hlt : q.2.2 < b.1
        · rw [if_pos hlt] at h
          obtain ⟨hmd, hnx⟩ := Prod.mk.injEq .. ▸ Option.some.inj h
          refine Or.inr ⟨by rw [← hbridge, hmd], ⟨al.1.label, q.1, q.2.1, al.2⟩, rfl, hnx⟩
        · rw [if_neg hlt] at h
          exact Or.inl h

lemma scan_fst_mem (cursor : ℚ) : ∀ (lines : List (RenderedLine × Bool))
    (st : Option (ℚ × ℚ) × List HoverCandidate) (md nx : ℚ),
    (lines.foldl (scanLine cursor) st).1 = some (md, nx) →
      st.1 = some (md, nx)
        ∨ (md ∈ seriesDistances cursor lines
            ∧ ∃ c ∈ lines.filterMap (lineCandidate cursor), c.x = nx) := by
  intro lines
  induction lines with
  | nil =>
    intro st md nx h
    simp only [List.foldl_nil] at h
    exact Or.inl h
  | cons al rest ih =>
    intro st md nx h
    rw [List.foldl_cons] at h
    rcases ih (scanLine cursor st al) md nx h with hst | ⟨hmem, c, hc, hcx⟩
    · rcases scanLine_fst_cases cursor st al md nx hst with hst2 | ⟨hdist, c, hc, hcx⟩
      · exact Or.inl hst2
      · refine Or.inr ⟨?_, c, ?_, hcx⟩
        · unfold seriesDistances
          rw [List.filterMap_cons, hdist]
          exact List.mem_cons_self _ _
        · rw [List.filterMap_cons, hc]
          exact List.mem_cons_self _ _
    · refine Or.inr ⟨?_, c, ?_, hcx⟩
      · unfold seriesDistances at *
        rw [List.filterMap_cons]
        rcases lineNearestDist cursor al with _ | d0
        · exact hmem
        · exact List.mem_cons_of_mem _ hmem
      · rw [List.filterMap_cons]
        rcases lineCandidate cursor al with _ | c0
        · exact hc
        · exact List.mem_cons_of_mem _ hc

/-- The left-axis lines (tagged `false`) followed by the right-axis lines (tagged
`true`), the order the two loops process them in. -/
def taggedLines (leftLines rightLines : List RenderedLine) : List (RenderedLine × Bool) :=
  leftLines.map (fun l => (l, false)) ++ rightLines.map (fun l => (l, true))

/-- `on_graph_hover` (lines 120-215), reduced to its resolver core: scan all lines;
bail out with no tooltip when no line yielded a point (lines 189-191); bail out when
the smallest distance exceeds 2% of the visible x-range (lines 198-205); otherwise
keep the candidates whose nearest-sample x lies strictly within `threshold * 0.1`
of `nearest_x` (lines 207-215) and return them with `nearest_x`. -/
def onGraphHover (cursor : ℚ) (leftLines rightLines : List RenderedLine)
    (xlim : ℚ × ℚ) : Option (ℚ × List HoverCandidate) :=
  match (scanLines cursor (taggedLines leftLines rightLines)).1 with
  | none => none
  | some mdnx =>
    if mdnx.1 > (xlim.2 - xlim.1) * (2 / 100) then none
    else some (mdnx.2,
      (scanLines cursor (taggedLines leftLines rightLines)).2.filter
        (fun c => decide (|c.x - mdnx.2| < (xlim.2 - xlim.1) * (2 / 100) * (1 / 10))))

example : onGraphHover 7 [⟨['s'], [10], [0]⟩] [] (0, 100) = none := by
  norm_num [onGraphHover, scanLines, taggedLines, scanLine, skipLine, nearestPoint,
    startsWithUnderscore, abs_of_nonneg, eq_false (show ('s' : Char) ≠ '_' by decide)]

example : onGraphHover 9 [⟨['s'], [10], [0]⟩] [] (0, 100)
    = some (10, [⟨['s'], 10, 0, false⟩]) := by
  norm_num [onGraphHover, scanLines, taggedLines, scanLine, skipLine, nearestPoint,
    startsWithUnderscore, abs_of_nonneg, eq_false (show ('s' : Char) ≠ '_' by decide)]

/-- C7: with a positive visible x-range, the hover resolver returns an empty result
(no tooltip) whenever every per-series nearest-sample distance exceeds 0.02 times the
visible x-range, and a non-empty candidate list as soon as one series' nearest sample
is within that threshold; with visible range [0, 100] and one series sampled at
x = 10, cursor 7 (distance 3) yields no tooltip and cursor 9 (distance 1) yields a
tooltip with that sample. -/
theorem hover_locality_cutoff (cursor : ℚ) (L R : List RenderedLine) (xlim : ℚ × ℚ)
    (hr : xlim.1 < xlim.2) :
    ((∀ d ∈ seriesDistances cursor (taggedLines L R),
        (xlim.2 - xlim.1) * (2 / 100) < d) →
      onGraphHover cursor L R xlim = none)
    ∧ ((∃ d ∈ seriesDistances cursor (taggedLines L R),
        d ≤ (xlim.2 - xlim.1) * (2 / 100)) →
      ∃ nx out, onGraphHover cursor L R xlim = some (nx, out) ∧ out ≠ [])
    ∧ onGraphHover 7 [⟨['s'], [10], [0]⟩] [] (0, 100) = none
    ∧ onGraphHover 9 [⟨['s'], [10], [0]⟩] [] (0, 100)
      = some (10, [⟨['s'], 10, 0, false⟩]) := by
  refine ⟨?_, ?_, ?_, ?_⟩
  · intro hall
    unfold onGraphHover
    rcases hb : (scanLines cursor (taggedLines L R)).1 with _ | mdnx
    · rfl
    · dsimp only
      rcases scan_fst_mem cursor (taggedLines L R) (none, []) mdnx.1 mdnx.2 hb
        with h0 | ⟨hmemd, c, hc, hcx⟩
      · exact absurd h0 (by simp)
      · rw [if_pos (hall mdnx.1 hmemd)]
  · rintro ⟨d, hd, hdle⟩
    unfold onGraphHover
    rcases hb : (scanLines cursor (taggedLines L R)).1 with _ | mdnx
    · exfalso
      have := (scan_fst_none cursor (taggedLines L R) (none, [])).mp hb
      rw [this.2] at hd
      exact absurd hd (List.not_mem_nil d)
    · dsimp only
      have hle := (scan_fst_le cursor (taggedLines L R) (none, []) mdnx.1 mdnx.2 hb).1
      have hnotgt : ¬ (mdnx.1 > (xlim.2 - xlim.1) * (2 / 100)) :=
        not_lt.mpr (le_trans (hle d hd) hdle)
      rcases scan_fst_mem cursor (taggedLines L R) (none, []) mdnx.1 mdnx.2 hb
        with h0 | ⟨hmemd, c, hc, hcx⟩
      · exact absurd h0 (by simp)
      · refine ⟨mdnx.2, (scanLines cursor (taggedLines L R)).2.filter
            (fun c => decide (|c.x - mdnx.2|
              < (xlim.2 - xlim.1) * (2 / 100) * (1 / 10))), ?_, ?_⟩
        · rw [if_neg hnotgt]
        · have hcdata : c ∈ (scanLines cursor (taggedLines L R)).2 := by
            have h2 := scan_snd cursor (taggedLines L R) (none, [])
            have h2' : (scanLines cursor (taggedLines L R)).2
                = (taggedLines L R).filterMap (lineCandidate cursor) := by
              simpa using h2
            rw [h2']
            exact hc
          have hpred : decide (|c.x - mdnx.2|
              < (xlim.2 - xlim.1) * (2 / 100) * (1 / 10)) = true := by
            rw [hcx, sub_self, abs_zero]
            have hpos : (0 : ℚ) < (xlim.2 - xlim.1) * (2 / 100) * (1 / 10) := by
              have h1 : (0 : ℚ) < xlim.2 - xlim.1 := sub_pos.mpr hr
              positivity
            simpa using hpos
          exact List.ne_nil_of_mem (List.mem_filter.mpr ⟨hcdata, hpred⟩)
  · norm_num [onGraphHover, scanLines, taggedLines, scanLine, skipLine, nearestPoint,
      startsWithUnderscore, abs_of_nonneg, eq_false (show ('s' : Char) ≠ '_' by decide)]
  · norm_num [onGraphHover, scanLines, taggedLines, scanLine, skipLine, nearestPoint,
      startsWithUnderscore, abs_of_nonneg, eq_false (show ('s' : Char) ≠ '_' by decide)]

/-- C4 (amended): when the resolver does produce a tooltip, the returned candidate
set consists of exactly those series whose nearest-sample x lies strictly within
0.002 times the visible x-range of the `nearest_x` that attained the global minimum —
the code multiplies the 2% locality threshold by 0.1, giving 0.002, not the claimed
0.001. -/
theorem hover_grouping_tolerance (cursor : ℚ) (L R : List RenderedLine)
    (xlim : ℚ × ℚ) (nx : ℚ) (out : List HoverCandidate)
    (h : onGraphHover cursor L R xlim = some (nx, out)) :
    out = ((taggedLines L R).filterMap (lineCandidate cursor)).filter
        (fun c => decide (|c.x - nx| < (xlim.2 - xlim.1) * (2 / 1000)))
    ∧ (∀ c ∈ out, |c.x - nx| < (xlim.2 - xlim.1) * (2 / 1000)) := by
  have hconst : ∀ r : ℚ, r * (2 / 100) * (1 / 10) = r * (2 / 1000) := by
    intro r; ring
  unfold onGraphHover at h
  rcases hb : (scanLines cursor (taggedLines L R)).1 with _ | mdnx <;>
    rw [hb] at h <;> dsimp only at h
  · exact absurd h (by simp)
  · by_cases hgt : mdnx.1 > (xlim.2 - xlim.1) * (2 / 100)
    · rw [if_pos hgt] at h
      exact absurd h (by simp)
    · rw [if_neg hgt] at h
      obtain ⟨hnx, hout⟩ := Prod.mk.injEq .. ▸ Option.some.inj h
      subst hnx
      have h2x : (scanLines cursor (taggedLines L R)).2
          = (taggedLines L R).filterMap (lineCandidate cursor) := by
        simpa using scan_snd cursor (taggedLines L R) (none, [])
      constructor
      · rw [← hout, h2x]
        apply List.filter_congr
        intro c _
        rw [hconst]
      · intro c hcout
        rw [← hout] at hcout
        have hp := (List.mem_filter.mp hcout).2
        simp only [decide_eq_true_eq] at hp
        rw [← hconst]
        exact hp

/-- C4 counterexample: with visible range [0, 100], series A sampled at x = 50 and
series B at x = 50.15, cursor at 50: `nearest_x` is 50 and B's candidate is included
in the tooltip (0.15 < 0.002 * 100 = 0.2), although the claim's tolerance would
exclude it (0.15 > 0.001 * 100 = 0.1). -/
theorem hover_grouping_counterexample :
    onGraphHover 50 [⟨['A'], [50], [1]⟩, ⟨['B'], [1003/20], [2]⟩] [] (0, 100)
      = some (50, [⟨['A'], 50, 1, false⟩, ⟨['B'], 1003/20, 2, false⟩])
    ∧ ¬(|(1003 / 20 : ℚ) - 50| ≤ (1 / 1000) * (100 - 0)) := by
  constructor
  · norm_num [onGraphHover, scanLines, taggedLines, scanLine, skipLine, nearestPoint,
      startsWithUnderscore, abs_of_nonneg,
      eq_false (show ('A' : Char) ≠ '_' by decide),
      eq_false (show ('B' : Char) ≠ '_' by decide)]
  · norm_num [abs_of_nonneg]

/-- Witness for `hover_locality_cutoff`: visible range [0, 100], one left-axis series
sampled at x = 10, cursor at 9. -/
theorem hover_locality_cutoff_witness :
    ((0 : ℚ) < (100 : ℚ))
    ∧ (((∀ d ∈ seriesDistances 9 (taggedLines [⟨['s'], [10], [0]⟩] []),
          ((100 : ℚ) - 0) * (2 / 100) < d) →
        onGraphHover 9 [⟨['s'], [10], [0]⟩] [] (0, 100) = none)
      ∧ ((∃ d ∈ seriesDistances 9 (taggedLines [⟨['s'], [10], [0]⟩] []),
          d ≤ ((100 : ℚ) - 0) * (2 / 100)) →
        ∃ nx out, onGraphHover 9 [⟨['s'], [10], [0]⟩] [] (0, 100) = some (nx, out)
          ∧ out ≠ [])
      ∧ onGraphHover 7 [⟨['s'], [10], [0]⟩] [] (0, 100) = none
      ∧ onGraphHover 9 [⟨['s'], [10], [0]⟩] [] (0, 100)
        = some (10, [⟨['s'], 10, 0, false⟩])) :=
  ⟨by norm_num, hover_locality_cutoff 9 [⟨['s'], [10], [0]⟩] [] (0, 100) (by norm_num)⟩

/-- Witness for `hover_grouping_tolerance`: the tooltip produced at cursor 9 over the
single series sampled at x = 10 is exactly the filtered candidate list. -/
theorem hover_grouping_tolerance_witness :
    onGraphHover 9 [⟨['s'], [10], [0]⟩] [] (0, 100)
      = some (10, [⟨['s'], 10, 0, false⟩])
    ∧ (([⟨['s'], 10, 0, false⟩] : List HoverCandidate)
        = ((taggedLines [⟨['s'], [10], [0]⟩] []).filterMap (lineCandidate 9)).filter
            (fun c => decide (|c.x - 10| < (((0 : ℚ), (100 : ℚ)).2
              - ((0 : ℚ), (100 : ℚ)).1) * (2 / 1000)))
      ∧ (∀ c ∈ ([⟨['s'], 10, 0, false⟩] : List HoverCandidate),
          |c.x - 10| < (((0 : ℚ), (100 : ℚ)).2 - ((0 : ℚ), (100 : ℚ)).1) * (2 / 1000))) :=
  ⟨by norm_num [onGraphHover, scanLines, taggedLines, scanLine, skipLine, nearestPoint,
      startsWithUnderscore, abs_of_nonneg, eq_false (show ('s' : Char) ≠ '_' by decide)],
    hover_grouping_tolerance 9 [⟨['s'], [10], [0]⟩] [] (0, 100) 10 [⟨['s'], 10, 0, false⟩]
      (by norm_num [onGraphHover, scanLines, taggedLines, scanLine, skipLine,
        nearestPoint, startsWithUnderscore, abs_of_nonneg,
        eq_false (show ('s' : Char) ≠ '_' by decide)])⟩

end CPUGraph
